import Mathlib

/-
  Verification development for the option-system core of mpv
  (src/options/m_config.c). The definitions below are a shallow embedding of
  the data model and operations of that file: the registry of config options,
  name resolution with wildcard and negation handling, the setter pipeline
  entry points, the shadow snapshot with per-group version counters, the
  backup stack, profiles, and the include meta-option. Option storage is
  modelled as an erased slot store (keys stand for live-storage pointers,
  values for the byte content of one typed slot); the type-handler copy
  operation is value assignment, matching its byte-copy contract.
-/

namespace MpvConfig

/-- Slot contents: the byte content of one typed option slot, abstracted. -/
abbrev Value := Nat

/-- Modelled from the spec: return code M_OPT_UNKNOWN of m_option.h, which is
not part of src/. Spec section 6 fixes success as nonnegative and the error
codes as distinct negatives with exit the most negative. -/
def M_OPT_UNKNOWN : Int := -1

/-- Modelled from the spec: return code M_OPT_MISSING_PARAM of m_option.h. -/
def M_OPT_MISSING_PARAM : Int := -2

/-- Modelled from the spec: return code M_OPT_INVALID of m_option.h. -/
def M_OPT_INVALID : Int := -3

/-- Modelled from the spec: return code M_OPT_DISALLOW_PARAM of m_option.h. -/
def M_OPT_DISALLOW_PARAM : Int := -4

/-- Modelled from the spec: return code M_OPT_EXIT of m_option.h, the most
negative code; M_OPT_EXIT - 1 is used for exit-not-an-error. -/
def M_OPT_EXIT : Int := -6

/-- Maximal profile inclusion depth (m_config.c line 48). -/
def MAX_PROFILE_DEPTH : Nat := 20

/-- Maximal include nesting depth (m_config.c line 50). -/
def MAX_RECURSION_DEPTH : Nat := 8

/-- bstr_splice / prefix view: the first n characters of a string (clamped),
as used by the wildcard match of m_config_get_co. -/
def bstr_take (s : String) (n : Nat) : String := ⟨s.data.take n⟩

/-- bstr_eatstart0 result: the string with its first n characters removed. -/
def bstr_drop (s : String) (n : Nat) : String := ⟨s.data.drop n⟩

/-- The string with its last n characters removed (the coname.len-- of the
wildcard match). -/
def bstr_dropRight (s : String) (n : Nat) : String := ⟨s.data.take (s.data.length - n)⟩

/-- bstr_startswith0: does s start with p. -/
def bstr_startswith (s p : String) : Bool := p.data.isPrefixOf s.data

/-- bstr_endswith0: does s end with p. -/
def bstr_endswith (s p : String) : Bool := p.data.isSuffixOf s.data

/-- Discriminates the option types the resolver treats specially:
m_option_type_alias, m_option_type_removed, CONF_TYPE_FLAG, CONF_TYPE_CHOICE
and m_option_type_aspect; every other type handler is `other`. -/
inductive TypeKind where
  | flag
  | choice
  | aspect
  | aliasK
  | removed
  | other
deriving DecidableEq

/-- One registry entry (struct m_config_option together with the fields of
its m_option definition that the core reads). `data` is the key of the live
storage slot (none for storage-less entries), `typePriv` carries the alias
target for alias entries. -/
structure COption where
  name : String := ""
  typeKind : TypeKind := TypeKind.other
  typePriv : String := ""
  typeHasChild : Bool := false
  typeAllowWildcard : Bool := false
  optGlobal : Bool := false
  optFixed : Bool := false
  optPreParse : Bool := false
  optNoCfg : Bool := false
  deprecated : Bool := false
  data : Option Nat := none
  shadow_offset : Int := -1
  group : Nat := 0
  is_set_from_cmdline : Bool := false
  is_set_locally : Bool := false
  warning_was_printed : Bool := false
deriving DecidableEq

/-- Matching test of the resolver loop body (m_config.c lines 618-625):
a wildcard-capable entry whose name ends in star matches by stripped prefix,
every other entry matches by exact name equality. -/
def co_matches (co : COption) (name : String) : Bool :=
  if co.typeAllowWildcard && bstr_endswith co.name "*" then
    bstr_take name (co.name.length - 1) == bstr_dropRight co.name 1
  else co.name == name

/-- Linear first-match scan over the registry (the loop of m_config_get_co,
m_config.c lines 615-662, before the per-match alias, removed and deprecation
post-processing). -/
def scan_opts : List COption → String → Option COption
  | [], _ => none
  | co :: rest, name => if co_matches co name then some co else scan_opts rest name

/-- Name resolution, m_config_get_co (m_config.c lines 609-664). Log output
and the warning_was_printed bookkeeping do not affect the returned entry and
are omitted. The C alias recursion is unbounded; `fuel` bounds the alias
chase, and every theorem below holds for every fuel that suffices. -/
def m_config_get_co (cfg : List COption) : Nat → String → Option COption
  | 0, name =>
    if name.length = 0 then none
    else
      match scan_opts cfg name with
      | none => none
      | some co =>
        match co.typeKind with
        | TypeKind.aliasK => none
        | TypeKind.removed => none
        | _ => some co
  | fuel + 1, name =>
    if name.length = 0 then none
    else
      match scan_opts cfg name with
      | none => none
      | some co =>
        match co.typeKind with
        | TypeKind.aliasK => m_config_get_co cfg fuel co.typePriv
        | TypeKind.removed => none
        | _ => some co

/-- Negation resolution, m_config_find_negation_opt (m_config.c lines
762-780): strip a leading "no-", resolve again, and keep the result only for
flag, choice and aspect types. -/
def m_config_find_negation_opt (cfg : List COption) (fuel : Nat) (name : String) :
    Option COption :=
  if bstr_startswith name "no-" then
    match m_config_get_co cfg fuel (bstr_drop name 3) with
    | none => none
    | some co =>
      if co.typeKind = TypeKind.flag ∨ co.typeKind = TypeKind.choice ∨
          co.typeKind = TypeKind.aspect then some co
      else none
  else none

/-- Resolution front of m_config_parse_option (m_config.c lines 782-797): the
primary resolve, the negation fallback with its disallow-param check and the
rewrite of the value to the literal string "no". The remainder of the
pipeline (flag gating, built-in dispatch, type parse) is the parameter
`rest`, applied to the entry, the possibly stripped name and the value. -/
def m_config_parse_option_front (cfg : List COption) (fuel : Nat)
    (name param : String) (rest : COption → String → String → Int) : Int :=
  match m_config_get_co cfg fuel name with
  | some co => rest co name param
  | none =>
    match m_config_find_negation_opt cfg fuel name with
    | none => M_OPT_UNKNOWN
    | some co =>
      if param.length ≠ 0 then M_OPT_DISALLOW_PARAM
      else rest co (bstr_drop name 3) "no"

/-- Include callback invocation record: filename, flags, and the value of
config->recursion_depth while the callback runs. -/
structure IncludeCall where
  filename : String
  flags : Int
  depthDuring : Nat
deriving DecidableEq

/-- The include meta-option, parse_include (m_config.c lines 75-92). `depth`
is config->recursion_depth on entry; the returned Nat is its value after the
call (the increment around the callback is restored), and the list records
the include-callback invocations. -/
def parse_include (depth : Nat) (param : String) (set : Bool) (flags : Int) :
    Int × Nat × List IncludeCall :=
  if param.length = 0 then (M_OPT_MISSING_PARAM, depth, [])
  else if !set then (1, depth, [])
  else if MAX_RECURSION_DEPTH ≤ depth then (M_OPT_INVALID, depth, [])
  else (1, depth, [{ filename := param, flags := flags, depthDuring := depth + 1 }])

/-- struct m_profile: name, optional description, ordered option pairs. -/
structure MProfile where
  name : String
  desc : Option String := none
  popts : List (String × String) := []
deriving DecidableEq

/-- m_config_get_profile (m_config.c lines 1049-1056): first profile in list
order whose name matches. -/
def m_config_get_profile (ps : List MProfile) (name : String) : Option MProfile :=
  ps.find? (fun p => p.name == name)

/-- m_config_add_profile (m_config.c lines 1064-1076). A none name models the
C NULL pointer. The new profile is pushed at the head of the list, matching
the linked-list push. -/
def m_config_add_profile (ps : List MProfile) (name : Option String) :
    Option MProfile × List MProfile :=
  match name with
  | none => (none, ps)
  | some nm =>
    if nm.length = 0 ∨ nm = "default" then (none, ps)
    else
      match m_config_get_profile ps nm with
      | some p => (some p, ps)
      | none =>
        let p : MProfile := { name := nm }
        (some p, p :: ps)

/-- One backup stack node (struct m_opt_backup): the index of the backed-up
config option, the key of its live-storage slot (mirroring bc->co->data, the
pointer the dedup scan compares), and the saved value. -/
structure BackupEntry where
  co : Nat
  key : Nat
  backup : Value
deriving DecidableEq

/-- The mutable state of one m_config root that the verified operations
touch. The group array (struct m_config_group) is split into its two mutable
components as index-functions: parent_group and the version counter ts;
option live storage and the shadow byte buffer are slot stores. `shadow`
records whether m_config_create_shadow has run. -/
structure MConfigState where
  opts : List COption
  num_groups : Nat
  parent_group : Nat → Int
  group_ts : Nat → Int
  store : Nat → Value
  shadow : Bool
  shadow_data : Int → Value
  backup_opts : List BackupEntry

/-- Replace the entry at one index of the registry, leaving every other entry
and the length unchanged (pointer update through struct m_config_option *co). -/
def updCO (f : COption → COption) : List COption → Nat → List COption
  | [], _ => []
  | co :: rest, 0 => f co :: rest
  | co :: rest, j + 1 => co :: updCO f rest j

/-- The ancestor chain walked by the version-bump loop of
m_config_notify_change_co: the group itself, its parent, and so on while the
index is nonnegative. The C loop is unbounded; `fuel` makes it total, and
num_groups fuel suffices for well-formed parents. -/
def ancestor_chain (parent : Nat → Int) (fuel : Nat) (g : Int) : List Nat :=
  match fuel with
  | 0 => []
  | f + 1 =>
    if 0 ≤ g then g.toNat :: ancestor_chain parent f (parent g.toNat) else []

/-- The version-bump loop of m_config_notify_change_co (m_config.c lines
369-373): fetch-add 1 on the counter of the group, then move to its parent
while the index is nonnegative. -/
def bump_groups (parent : Nat → Int) (fuel : Nat) (g : Int) (ts : Nat → Int) :
    Nat → Int :=
  match fuel with
  | 0 => ts
  | f + 1 =>
    if 0 ≤ g then
      bump_groups parent f (parent g.toNat)
        (Function.update ts g.toNat (ts g.toNat + 1))
    else ts

/-- m_config_notify_change_co (m_config.c lines 358-378): if the shadow
exists, copy the live slot into the shadow slot (under the shadow mutex; the
model is sequential) when the entry is shadowed, then bump the version
counters up the parent chain. The terminal message-level hook touches no
modelled state and is omitted. -/
def m_config_notify_change_co (s : MConfigState) (i : Nat) : MConfigState :=
  match s.opts[i]? with
  | none => s
  | some co =>
    if s.shadow then
      let sd :=
        if 0 ≤ co.shadow_offset then
          match co.data with
          | some k => Function.update s.shadow_data co.shadow_offset (s.store k)
          | none => s.shadow_data
        else s.shadow_data
      { s with
        shadow_data := sd,
        group_ts := bump_groups s.parent_group s.num_groups (Int.ofNat co.group)
          s.group_ts }
    else s

/-- ensure_backup (m_config.c lines 441-462): refuse for has-child types,
global options and storage-less entries; refuse when the stack already holds
an entry with the same live-storage pointer; otherwise snapshot the live
value, push it, and mark the entry is_set_locally. -/
def ensure_backup (s : MConfigState) (i : Nat) : MConfigState :=
  match s.opts[i]? with
  | none => s
  | some co =>
    if co.typeHasChild then s
    else if co.optGlobal then s
    else
      match co.data with
      | none => s
      | some k =>
        if s.backup_opts.any (fun bc => bc.key == k) then s
        else
          { s with
            backup_opts := { co := i, key := k, backup := s.store k } :: s.backup_opts,
            opts := updCO (fun c => { c with is_set_locally := true }) s.opts i }

/-- One iteration of the m_config_restore_backups loop: copy the snapshot
back into the live slot and clear is_set_locally. -/
def restore_one (s : MConfigState) (bc : BackupEntry) : MConfigState :=
  { s with
    store := Function.update s.store bc.key bc.backup,
    opts := updCO (fun c => { c with is_set_locally := false }) s.opts bc.co }

/-- Pop-and-restore over an explicit list, head (most recent backup) first. -/
def restore_list (s : MConfigState) : List BackupEntry → MConfigState
  | [] => s
  | bc :: rest => restore_list (restore_one s bc) rest

/-- m_config_restore_backups (m_config.c lines 464-475): drain the backup
stack in LIFO order, restoring every saved value. -/
def m_config_restore_backups (s : MConfigState) : MConfigState :=
  restore_list { s with backup_opts := [] } s.backup_opts

/-- Controller-side events for the backup claims: a call to ensure_backup for
one registry entry, or a committed write into one live slot (the effect of a
successful type-handler parse into co->data). -/
inductive BOp where
  | ensure (i : Nat)
  | write (k : Nat) (v : Value)
deriving DecidableEq

/-- Run one controller event. -/
def run_op (s : MConfigState) : BOp → MConfigState
  | BOp.ensure i => ensure_backup s i
  | BOp.write k v => { s with store := Function.update s.store k v }

/-- Run a sequence of controller events in order. -/
def run_ops (s : MConfigState) : List BOp → MConfigState
  | [] => s
  | op :: rest => run_ops (run_op s op) rest

/-- The live value a slot key holds immediately before the first ensure_backup
of the event sequence that references it, that is the first ensure whose
entry passes the has-child, global and storage checks with that key. -/
def firstEnsureVal (s : MConfigState) : List BOp → Nat → Option Value
  | [], _ => none
  | op :: rest, k =>
    match op with
    | BOp.ensure i =>
      match s.opts[i]? with
      | some co =>
        if co.typeHasChild = false ∧ co.optGlobal = false ∧ co.data = some k then
          some (s.store k)
        else firstEnsureVal (run_op s op) rest k
      | none => firstEnsureVal (run_op s op) rest k
    | BOp.write _ _ => firstEnsureVal (run_op s op) rest k

/-- The live-storage keys currently held on the backup stack (the data
pointers the dedup scan of ensure_backup compares). -/
def stackKeys (s : MConfigState) : List Nat := s.backup_opts.map BackupEntry.key

/-- The M_SETOPT flag mask, one Bool per bit. -/
structure SetoptFlags where
  check_only : Bool := false
  pre_parse_only : Bool := false
  preserve_cmdline : Bool := false
  no_fixed : Bool := false
  no_pre_parse : Bool := false
  from_config_file : Bool := false
  setopt_backup : Bool := false
  from_cmdline : Bool := false
deriving DecidableEq

/-- handle_set_opt_flags (m_config.c lines 691-726). Returns the decision
code (negative error, 0 skip, 1 check, 2 set) and the state, which changes
only through the ensure_backup call of the backup branch. -/
def handle_set_opt_flags (s : MConfigState) (i : Nat) (fl : SetoptFlags) :
    Int × MConfigState :=
  match s.opts[i]? with
  | none => (0, s)
  | some co =>
    if fl.pre_parse_only && !co.optPreParse then (0, s)
    else
      let setv := !fl.check_only && !(fl.preserve_cmdline && co.is_set_from_cmdline)
      if fl.no_fixed && co.optFixed then (M_OPT_INVALID, s)
      else if fl.no_pre_parse && co.optPreParse then (M_OPT_INVALID, s)
      else if fl.from_config_file && co.optNoCfg then (M_OPT_INVALID, s)
      else if fl.setopt_backup then
        if co.optGlobal then (M_OPT_INVALID, s)
        else if setv then (2, ensure_backup s i) else (1, s)
      else if setv then (2, s) else (1, s)

/-- handle_on_set (m_config.c lines 728-735): mark the entry as set from the
command line when requested, then propagate the change. -/
def handle_on_set (s : MConfigState) (i : Nat) (fl : SetoptFlags) : MConfigState :=
  let s1 :=
    if fl.from_cmdline then
      { s with opts := updCO (fun c => { c with is_set_from_cmdline := true }) s.opts i }
    else s
  m_config_notify_change_co s1 i

/-- m_config_set_option_raw (m_config.c lines 738-756). The entry argument is
an optional registry index (none models the NULL pointer); `newVal` is the
typed data to copy into the live slot. -/
def m_config_set_option_raw (s : MConfigState) (coIdx : Option Nat)
    (newVal : Value) (fl : SetoptFlags) : Int × MConfigState :=
  match coIdx with
  | none => (M_OPT_UNKNOWN, s)
  | some i =>
    match s.opts[i]? with
    | none => (M_OPT_UNKNOWN, s)
    | some co =>
      match co.data with
      | none => (M_OPT_UNKNOWN, s)
      | some k =>
        match handle_set_opt_flags s i fl with
        | (r, s1) =>
          if r ≤ 1 then (r, s1)
          else (0, handle_on_set { s1 with store := Function.update s1.store k newVal } i fl)

/-- Cache state (struct m_config_cache together with its pruned
shadow_config): the recorded version, the bound group index, the surviving
registry entries and the cache-local slot store. -/
structure MConfigCache where
  ts : Int
  group : Nat
  copts : List COption
  cstore : Nat → Value

/-- The copy loop of m_config_cache_update (m_config.c lines 349-353): for
every surviving registry entry with a shadow slot, copy the shadow slot into
the cache-local live slot. -/
def copy_all_from_shadow (sh : Int → Value) : List COption → (Nat → Value) → Nat → Value
  | [], st => st
  | co :: rest, st =>
    copy_all_from_shadow sh rest
      (if 0 ≤ co.shadow_offset then
        match co.data with
        | some k => Function.update st k (sh co.shadow_offset)
        | none => st
      else st)

/-- m_config_cache_update (m_config.c lines 338-356): compare the group
version counter against the recorded one; if not newer return false, else
record the current version, copy every shadowed slot and return true. The
mutex and the relaxed pre-check coincide in this sequential model. -/
def m_config_cache_update (root : MConfigState) (cache : MConfigCache) :
    Bool × MConfigCache :=
  if root.group_ts cache.group ≤ cache.ts then (false, cache)
  else
    (true,
      { cache with
        ts := root.group_ts cache.group,
        cstore := copy_all_from_shadow root.shadow_data cache.copts cache.cstore })

/-- Observable events of profile application: entry into the apply loop of
m_config_set_profile for one profile, the depth-guard warning "Profile
inclusion too deep", the warning for an unknown profile name, and the
application of an ordinary (non-profile) option pair through the setter
pipeline. -/
inductive PEv where
  | profileStart (name : String)
  | warnTooDeep
  | warnUnknownProfile (name : String)
  | applyOther (name value : String)
deriving DecidableEq

/-- Split a character list at commas. -/
def splitCommaAux : List Char → List Char → List String
  | [], acc => [⟨acc.reverse⟩]
  | c :: rest, acc =>
    if c = ',' then ⟨acc.reverse⟩ :: splitCommaAux rest []
    else splitCommaAux rest (c :: acc)

/-- Modelled from the spec: the comma-separated list parse of
m_option_type_string_list (an external type handler, not in src/), used by
parse_profile on the value of a profile pair. -/
def splitProfileList (s : String) : List String :=
  (splitCommaAux s.data []).filter (fun e => e ≠ "")

/-
  The profile application chain m_config_set_profile -> (per pair)
  m_config_set_option_ext -> m_config_parse_option -> parse_profile ->
  m_config_set_profile (m_config.c lines 94-124 and 1100-1122). The registry
  lookup of the name "profile" and its flag gating live outside src/ (the
  top-level option table); as in the mpv root config, a pair named "profile"
  dispatches to parse_profile in commit mode, and every other pair is an
  ordinary option application whose result the set_profile loop discards,
  recorded as an applyOther event. `depth` is config->profile_depth, which
  the C code increments around the apply loop and restores.
-/
mutual

/-- m_config_set_profile (m_config.c lines 1100-1122): unknown profile warns
and returns M_OPT_INVALID; a depth beyond MAX_PROFILE_DEPTH warns "Profile
inclusion too deep" and returns M_OPT_UNKNOWN without applying any pair;
otherwise apply every pair in order at depth + 1 and return 0. -/
def m_config_set_profile (ps : List MProfile) (depth : Nat) (name : String)
    (flags : Int) : Int × List PEv :=
  match m_config_get_profile ps name with
  | none => (M_OPT_INVALID, [PEv.warnUnknownProfile name])
  | some p =>
    if MAX_PROFILE_DEPTH < depth then (M_OPT_UNKNOWN, [PEv.warnTooDeep])
    else
      (0, PEv.profileStart name :: profile_apply_pairs ps (depth + 1) p.popts flags)
termination_by (MAX_PROFILE_DEPTH + 2 - depth, 0, 0)
decreasing_by
  apply Prod.Lex.left
  simp only [MAX_PROFILE_DEPTH] at *
  omega

/-- The pair loop of m_config_set_profile: each pair goes through the setter
pipeline with from-config-file OR-ed in and its result is discarded; a pair
named "profile" dispatches to parse_profile. -/
def profile_apply_pairs (ps : List MProfile) (depth : Nat)
    (pairs : List (String × String)) (flags : Int) : List PEv :=
  match pairs with
  | [] => []
  | (n, v) :: rest =>
    (if n = "profile" then (parse_profile_names ps depth (splitProfileList v) flags).2
     else [PEv.applyOther n v]) ++ profile_apply_pairs ps depth rest flags
termination_by (MAX_PROFILE_DEPTH + 2 - depth, 2, pairs.length)
decreasing_by
  · apply Prod.Lex.right
    apply Prod.Lex.left
    omega
  · apply Prod.Lex.right
    apply Prod.Lex.right
    simp

/-- The loop of parse_profile (m_config.c lines 116-121) over the parsed
name list: apply each named profile in turn, stopping at the first negative
result, whose code is returned. -/
def parse_profile_names (ps : List MProfile) (depth : Nat)
    (names : List String) (flags : Int) : Int × List PEv :=
  match names with
  | [] => (M_OPT_INVALID, [])
  | nm :: rest =>
    let res := m_config_set_profile ps depth nm flags
    if res.1 < 0 ∨ rest = [] then res
    else
      let res2 := parse_profile_names ps depth rest flags
      (res2.1, res.2 ++ res2.2)
termination_by (MAX_PROFILE_DEPTH + 2 - depth, 1, names.length)
decreasing_by
  · apply Prod.Lex.right
    apply Prod.Lex.left
    omega
  · apply Prod.Lex.right
    apply Prod.Lex.right
    simp

end

/-- Concrete wildcard-capable registry entry named "ab*". -/
def wildcardCO : COption := { name := "ab*", typeAllowWildcard := true }

/-- Concrete plain registry entry named "abc". -/
def exactCO : COption := { name := "abc" }

/-- Registry in which a wildcard entry precedes an exact-name entry whose
name also matches the wildcard prefix. -/
def registryW : List COption := [wildcardCO, exactCO]

/-- Concrete flag-type entry with live storage at slot 0 and shadow slot 0. -/
def muteCO : COption :=
  { name := "mute", typeKind := TypeKind.flag, data := some 0, shadow_offset := 0 }

/-- One-entry registry holding muteCO. -/
def registryM : List COption := [muteCO]

/-- Concrete one-option, one-group root with its shadow created. -/
def wS : MConfigState :=
  { opts := [muteCO], num_groups := 1, parent_group := fun _ => -1,
    group_ts := fun _ => 0, store := fun _ => 7, shadow := true,
    shadow_data := fun _ => 0, backup_opts := [] }

/-- Concrete cache bound to group 0 of wS, never refreshed yet. -/
def wCache : MConfigCache :=
  { ts := -1, group := 0, copts := [muteCO], cstore := fun _ => 0 }

/-- Concrete controller event sequence: back up entry 0, then overwrite its
live slot. -/
def wOps : List BOp := [BOp.ensure 0, BOp.write 0 3]

/-- Concrete entry previously set from the command line. -/
def cmdCO : COption := { muteCO with is_set_from_cmdline := true }

/-- Root whose only option was set from the command line. -/
def wS8 : MConfigState := { wS with opts := [cmdCO] }

/-- Profile "A" whose single pair includes profile "A" again. -/
def profileA : MProfile := { name := "A", popts := [("profile", "A")] }

/-- Profile store holding only the self-referential profile "A". -/
def storeA : List MProfile := [profileA]

/-
  Theorems. Each claim of the specification is settled by exactly one
  theorem named after it; helper lemmas are shared.
-/

/-- C9: m_config_add_profile returns no profile for a null name and for the
reserved names "" and "default"; for any other name it returns the existing
profile unchanged when present and otherwise creates exactly one new empty
profile with that name, so profile names stay unique in the store. -/
theorem c9_add_profile (ps : List MProfile) (nm : String) (p : MProfile) :
    m_config_add_profile ps none = (none, ps)
    ∧ (nm.length = 0 ∨ nm = "default" →
        m_config_add_profile ps (some nm) = (none, ps))
    ∧ (nm.length ≠ 0 → nm ≠ "default" → m_config_get_profile ps nm = some p →
        m_config_add_profile ps (some nm) = (some p, ps))
    ∧ (nm.length ≠ 0 → nm ≠ "default" → m_config_get_profile ps nm = none →
        m_config_add_profile ps (some nm)
          = (some { name := nm }, ({ name := nm } : MProfile) :: ps))
    ∧ ((ps.map MProfile.name).Nodup →
        ((m_config_add_profile ps (some nm)).2.map MProfile.name).Nodup) := by
  refine ⟨rfl, ?_, ?_, ?_, ?_⟩
  · intro h
    simp only [m_config_add_profile, if_pos h]
  · intro h1 h2 h3
    have hcond : ¬(nm.length = 0 ∨ nm = "default") := by
      rintro (hc | hc) <;> [exact h1 hc; exact h2 hc]
    simp only [m_config_add_profile, if_neg hcond, h3]
  · intro h1 h2 h3
    have hcond : ¬(nm.length = 0 ∨ nm = "default") := by
      rintro (hc | hc) <;> [exact h1 hc; exact h2 hc]
    simp only [m_config_add_profile, if_neg hcond, h3]
  · intro hnd
    by_cases hcond : nm.length = 0 ∨ nm = "default"
    · simpa only [m_config_add_profile, if_pos hcond] using hnd
    · cases h3 : m_config_get_profile ps nm with
      | some q => simpa only [m_config_add_profile, if_neg hcond, h3] using hnd
      | none =>
        simp only [m_config_add_profile, if_neg hcond, h3, List.map_cons]
        refine List.nodup_cons.mpr ⟨?_, hnd⟩
        intro hmem
        obtain ⟨q, hq, hqname⟩ := List.mem_map.mp hmem
        have := List.find?_eq_none.mp h3 q hq
        simp only [beq_iff_eq] at this
        exact this hqname

/-- Witness for c9_add_profile at the empty store and the name "quiet". -/
theorem c9_add_profile_witness :
    m_config_add_profile [] (some "default") = (none, [])
    ∧ m_config_add_profile [] (some "quiet")
        = (some { name := "quiet" }, [{ name := "quiet" }]) := by
  have h := c9_add_profile [] "quiet" { name := "quiet" }
  refine ⟨(c9_add_profile [] "default" { name := "default" }).2.1 (Or.inr rfl), ?_⟩
  exact h.2.2.2.1 (by decide) (by decide) rfl

/-- C6 counterexample: at include depth 8 in check-only mode, parse_include
returns 1 (success), not the invalid error the claim states for every call
whose depth counter has reached MAX_RECURSION_DEPTH. -/
theorem c6_counterexample :
    parse_include 8 "file.conf" false 0 = (1, 8, [])
    ∧ (1 : Int) ≠ M_OPT_INVALID
    ∧ MAX_RECURSION_DEPTH ≤ 8 := by decide

/-- C6 (amended): parse_include returns missing-param on an empty parameter
in either mode; with a nonempty parameter, check-only mode returns 1 without
invoking the callback or checking the depth; in commit mode a depth at or
beyond 8 returns the invalid error without invoking the callback, and
otherwise the callback is invoked once with the filename and flags while the
depth counter is depth + 1 ≤ 8, the counter being restored afterwards. -/
theorem c6_parse_include (depth : Nat) (param : String) (set : Bool) (flags : Int) :
    (param.length = 0 →
      parse_include depth param set flags = (M_OPT_MISSING_PARAM, depth, []))
    ∧ (param.length ≠ 0 → set = false →
        parse_include depth param set flags = (1, depth, []))
    ∧ (param.length ≠ 0 → set = true → MAX_RECURSION_DEPTH ≤ depth →
        parse_include depth param set flags = (M_OPT_INVALID, depth, []))
    ∧ (param.length ≠ 0 → set = true → depth < MAX_RECURSION_DEPTH →
        parse_include depth param set flags
          = (1, depth, [{ filename := param, flags := flags, depthDuring := depth + 1 }])
        ∧ depth + 1 ≤ MAX_RECURSION_DEPTH) := by
  refine ⟨?_, ?_, ?_, ?_⟩
  · intro h
    simp [parse_include, h]
  · intro h1 h2
    simp [parse_include, h1, h2]
  · intro h1 h2 h3
    simp [parse_include, h1, h2, h3, Nat.not_lt.mpr h3]
  · intro h1 h2 h3
    refine ⟨?_, by simp only [MAX_RECURSION_DEPTH] at h3 ⊢; omega⟩
    simp [parse_include, h1, h2, Nat.not_le.mpr h3]

/-- Witness for c6_parse_include: commit-mode call at depth 0. -/
theorem c6_parse_include_witness :
    parse_include 0 "file.conf" true 5
      = (1, 0, [{ filename := "file.conf", flags := 5, depthDuring := 1 }])
    ∧ 0 + 1 ≤ MAX_RECURSION_DEPTH :=
  (c6_parse_include 0 "file.conf" true 5).2.2.2 (by decide) rfl (by decide)

/-- C10: resolving the empty name always fails, for every registry and every
fuel, and the setter pipeline front maps the empty name to the
unknown-option error. -/
theorem c10_empty_name (cfg : List COption) (fuel : Nat) (param : String)
    (rest : COption → String → String → Int) (name : String)
    (h : name.length = 0) :
    m_config_get_co cfg fuel name = none
    ∧ m_config_parse_option_front cfg fuel name param rest = M_OPT_UNKNOWN := by
  have hdata : name.data = [] := List.length_eq_zero.mp h
  have hget : m_config_get_co cfg fuel name = none := by
    cases fuel <;> simp [m_config_get_co, h]
  refine ⟨hget, ?_⟩
  have hneg : m_config_find_negation_opt cfg fuel name = none := by
    have : bstr_startswith name "no-" = false := by
      simp [bstr_startswith, hdata, List.isPrefixOf]
    simp [m_config_find_negation_opt, this]
  simp [m_config_parse_option_front, hget, hneg]

/-- Witness for c10_empty_name on a nonempty registry. -/
theorem c10_empty_name_witness :
    m_config_get_co registryM 3 "" = none
    ∧ m_config_parse_option_front registryM 3 "" "yes" (fun _ _ _ => 0)
        = M_OPT_UNKNOWN :=
  c10_empty_name registryM 3 "yes" (fun _ _ _ => 0) "" (by decide)

/-- C7 counterexample: in a registry where a wildcard-capable entry "ab*"
precedes the entry "abc", resolving the name "abc" selects the wildcard
entry, not the exact-name entry the claim requires. -/
theorem c7_counterexample :
    scan_opts registryW "abc" = some wildcardCO
    ∧ scan_opts registryW "abc" ≠ some exactCO
    ∧ exactCO.name = "abc"
    ∧ wildcardCO ≠ exactCO
    ∧ wildcardCO.typeAllowWildcard = true
    ∧ bstr_endswith wildcardCO.name "*" = true := by decide

/-- C7 (amended): the resolver scan walks the registry in order and returns
the first matching entry; an entry whose final name equals the queried name
exactly is selected whenever no earlier registry entry (wildcard or not)
matches the name. -/
theorem c7_exact_match_first (pre post : List COption) (co : COption) (name : String)
    (hpre : ∀ c ∈ pre, co_matches c name = false)
    (hname : co.name = name) (hw : co.typeAllowWildcard = false) :
    scan_opts (pre ++ co :: post) name = some co := by
  have hmatch : co_matches co name = true := by
    simp [co_matches, hw, hname]
  induction pre with
  | nil => simp [scan_opts, hmatch]
  | cons c rest ih =>
    have hc : co_matches c name = false := hpre c (List.mem_cons_self c rest)
    simp only [List.cons_append, scan_opts, hc, if_false, Bool.false_eq_true]
    exact ih (fun c2 hc2 => hpre c2 (List.mem_cons_of_mem c hc2))

/-- Witness for c7_exact_match_first: the exact entry wins when the wildcard
entry comes after it. -/
theorem c7_exact_match_first_witness :
    scan_opts ([] ++ exactCO :: [wildcardCO]) "abc" = some exactCO :=
  c7_exact_match_first [] [wildcardCO] exactCO "abc" (by simp) (by decide) (by decide)

/-- C5: for a name that does not resolve, negation resolution succeeds
exactly when the name starts with "no-" and the stripped name resolves to an
entry of flag, choice or aspect type; on success the pipeline front rejects
any nonempty parameter with the disallow-param error and otherwise continues
with the stripped name and the literal value "no"; on failure it returns the
unknown-option error. -/
theorem c5_negation (cfg : List COption) (fuel : Nat) (name param : String)
    (rest : COption → String → String → Int) (co : COption)
    (h : m_config_get_co cfg fuel name = none) :
    (m_config_find_negation_opt cfg fuel name = some co ↔
      (bstr_startswith name "no-" = true
        ∧ m_config_get_co cfg fuel (bstr_drop name 3) = some co
        ∧ (co.typeKind = TypeKind.flag ∨ co.typeKind = TypeKind.choice
            ∨ co.typeKind = TypeKind.aspect)))
    ∧ (m_config_find_negation_opt cfg fuel name = none →
        m_config_parse_option_front cfg fuel name param rest = M_OPT_UNKNOWN)
    ∧ (m_config_find_negation_opt cfg fuel name = some co → param.length ≠ 0 →
        m_config_parse_option_front cfg fuel name param rest = M_OPT_DISALLOW_PARAM)
    ∧ (m_config_find_negation_opt cfg fuel name = some co →
        m_config_parse_option_front cfg fuel name "" rest
          = rest co (bstr_drop name 3) "no") := by
  refine ⟨?_, ?_, ?_, ?_⟩
  · constructor
    · intro hsome
      by_cases hpre : bstr_startswith name "no-"
      · simp only [m_config_find_negation_opt, if_pos hpre] at hsome
        cases hres : m_config_get_co cfg fuel (bstr_drop name 3) with
        | none => rw [hres] at hsome; exact absurd hsome (by simp)
        | some co2 =>
          rw [hres] at hsome
          dsimp only at hsome
          by_cases hkind : co2.typeKind = TypeKind.flag ∨ co2.typeKind = TypeKind.choice
              ∨ co2.typeKind = TypeKind.aspect
          · rw [if_pos hkind] at hsome
            obtain rfl := Option.some.inj hsome
            exact ⟨hpre, rfl, hkind⟩
          · rw [if_neg hkind] at hsome
            exact absurd hsome (by simp)
      · simp only [m_config_find_negation_opt, if_neg hpre] at hsome
        exact absurd hsome (by simp)
    · rintro ⟨hpre, hres, hkind⟩
      simp only [m_config_find_negation_opt, if_pos hpre, hres, if_pos hkind]
  · intro hnone
    simp only [m_config_parse_option_front, h, hnone]
  · intro hsome hparam
    simp only [m_config_parse_option_front, h, hsome, if_pos hparam]
  · intro hsome
    simp only [m_config_parse_option_front, h, hsome]
    simp

/-- Witness for c5_negation: registry with one flag option "mute" and the
query "no-mute". -/
theorem c5_negation_witness :
    m_config_find_negation_opt registryM 1 "no-mute" = some muteCO
    ∧ m_config_parse_option_front registryM 1 "no-mute" "x" (fun _ _ _ => 9)
        = M_OPT_DISALLOW_PARAM
    ∧ m_config_parse_option_front registryM 1 "no-mute" "" (fun _ _ _ => 9)
        = (fun (_ : COption) (_ : String) (_ : String) => 9) muteCO
            (bstr_drop "no-mute" 3) "no" := by
  have h := c5_negation registryM 1 "no-mute" "x" (fun _ _ _ => 9) muteCO (by decide)
  have h0 := c5_negation registryM 1 "no-mute" "" (fun _ _ _ => 9) muteCO (by decide)
  have hsome : m_config_find_negation_opt registryM 1 "no-mute" = some muteCO :=
    h.1.mpr ⟨by decide, by decide, Or.inl (by decide)⟩
  exact ⟨hsome, h.2.2.1 hsome (by decide), h0.2.2.2 hsome⟩

/-- The shadow-to-cache copy loop leaves every slot untouched whose key no
entry of the list carries. -/
theorem copy_all_from_shadow_skip (sh : Int → Value) :
    ∀ (l : List COption) (st : Nat → Value) (k : Nat),
      k ∉ l.filterMap COption.data →
      copy_all_from_shadow sh l st k = st k := by
  intro l
  induction l with
  | nil => intro st k _; rfl
  | cons co rest ih =>
    intro st k hk
    rw [List.filterMap_cons] at hk
    cases hd : co.data with
    | none =>
      rw [hd] at hk
      rw [copy_all_from_shadow, ih _ k hk]
      simp [hd]
    | some k2 =>
      rw [hd] at hk
      have hne : k ≠ k2 := by
        intro he
        exact hk (by simp [he])
      have hk2 : k ∉ rest.filterMap COption.data := fun hm => hk (by simp [hm])
      rw [copy_all_from_shadow, ih _ k hk2]
      by_cases hso : (0 : Int) ≤ co.shadow_offset
      · simp [hso, hd, Function.update_noteq hne]
      · simp [hso, hd]

/-- The shadow-to-cache copy loop writes the shadow slot of an entry into the
cache slot of its key, provided the entry keys are pairwise distinct. -/
theorem copy_all_from_shadow_mem (sh : Int → Value) :
    ∀ (l : List COption) (st : Nat → Value) (co : COption) (k : Nat),
      (l.filterMap COption.data).Nodup → co ∈ l → 0 ≤ co.shadow_offset →
      co.data = some k →
      copy_all_from_shadow sh l st k = sh co.shadow_offset := by
  intro l
  induction l with
  | nil =>
    intro st co k _ hmem
    exact absurd hmem (List.not_mem_nil co)
  | cons c2 rest ih =>
    intro st co k hnd hmem hso hd
    rcases List.mem_cons.mp hmem with rfl | hmem2
    · have hk2 : k ∉ rest.filterMap COption.data := by
        rw [List.filterMap_cons, hd] at hnd
        exact (List.nodup_cons.mp hnd).1
      rw [copy_all_from_shadow, copy_all_from_shadow_skip sh rest _ k hk2]
      simp [hso, hd]
    · have hnd2 : (rest.filterMap COption.data).Nodup := by
        rw [List.filterMap_cons] at hnd
        cases hcd : c2.data with
        | none => rwa [hcd] at hnd
        | some kk =>
          rw [hcd] at hnd
          exact (List.nodup_cons.mp hnd).2
      rw [copy_all_from_shadow]
      exact ih _ co k hnd2 hmem2 hso hd

/-- C2: cache refresh returns false exactly when the group version has not
advanced past the recorded one, leaving the cache unchanged; otherwise it
records the current group version, copies every shadowed surviving entry
from the shadow buffer into the cache slot of its key, and returns true; and
a second refresh with no intervening commit always returns false. -/
theorem c2_cache_update (root : MConfigState) (c : MConfigCache)
    (hnd : (c.copts.filterMap COption.data).Nodup) :
    ((m_config_cache_update root c).1 = false ↔ root.group_ts c.group ≤ c.ts)
    ∧ ((m_config_cache_update root c).1 = false → (m_config_cache_update root c).2 = c)
    ∧ ((m_config_cache_update root c).1 = true →
        (m_config_cache_update root c).2.ts = root.group_ts c.group
        ∧ ∀ co ∈ c.copts, 0 ≤ co.shadow_offset → ∀ k, co.data = some k →
            (m_config_cache_update root c).2.cstore k
              = root.shadow_data co.shadow_offset)
    ∧ (m_config_cache_update root (m_config_cache_update root c).2).1 = false := by
  by_cases hle : root.group_ts c.group ≤ c.ts
  · refine ⟨by simp [m_config_cache_update, hle], ?_, ?_, ?_⟩
    · intro _
      simp [m_config_cache_update, hle]
    · intro htrue
      rw [m_config_cache_update, if_pos hle] at htrue
      exact absurd htrue (by simp)
    · simp [m_config_cache_update, hle]
  · refine ⟨by simp [m_config_cache_update, hle], ?_, ?_, ?_⟩
    · intro hfalse
      rw [m_config_cache_update, if_neg hle] at hfalse
      exact absurd hfalse (by simp)
    · intro _
      rw [m_config_cache_update, if_neg hle]
      refine ⟨rfl, ?_⟩
      intro co hmem hso k hd
      exact copy_all_from_shadow_mem root.shadow_data c.copts c.cstore co k hnd hmem hso hd
    · simp only [m_config_cache_update, if_neg hle]
      simp

/-- Witness for c2_cache_update: a stale concrete cache against wS. -/
theorem c2_cache_update_witness :
    (m_config_cache_update wS wCache).1 = true
    ∧ (m_config_cache_update wS (m_config_cache_update wS wCache).2).1 = false := by
  have h := c2_cache_update wS wCache (by decide)
  refine ⟨?_, h.2.2.2⟩
  by_cases hb : (m_config_cache_update wS wCache).1 = true
  · exact hb
  · have := h.1.mp (by simpa using hb)
    exact absurd this (by decide)

/-- Whenever flag gating decides anything below commit (code at most 1), it
has not touched the state: only the backup branch of a commit decision calls
ensure_backup. -/
theorem handle_set_opt_flags_le_one (s : MConfigState) (i : Nat) (fl : SetoptFlags)
    (h : (handle_set_opt_flags s i fl).1 ≤ 1) :
    handle_set_opt_flags s i fl = ((handle_set_opt_flags s i fl).1, s) := by
  cases hco : s.opts[i]? with
  | none => simp [handle_set_opt_flags, hco]
  | some co =>
    simp only [handle_set_opt_flags, hco] at h ⊢
    by_cases c1 : (fl.pre_parse_only && !co.optPreParse) = true
    · simp [c1]
    · simp only [if_neg c1] at h ⊢
      by_cases c2 : (fl.no_fixed && co.optFixed) = true
      · simp [c2]
      · simp only [if_neg c2] at h ⊢
        by_cases c3 : (fl.no_pre_parse && co.optPreParse) = true
        · simp [c3]
        · simp only [if_neg c3] at h ⊢
          by_cases c4 : (fl.from_config_file && co.optNoCfg) = true
          · simp [c4]
          · simp only [if_neg c4] at h ⊢
            by_cases c5 : fl.setopt_backup = true
            · simp only [if_pos c5] at h ⊢
              by_cases c6 : co.optGlobal = true
              · simp [c6]
              · simp only [if_neg c6] at h ⊢
                by_cases c7 : (!fl.check_only
                    && !(fl.preserve_cmdline && co.is_set_from_cmdline)) = true
                · rw [if_pos c7] at h
                  norm_num at h
                · rw [if_neg c7]
            · simp only [if_neg c5] at h ⊢
              by_cases c7 : (!fl.check_only
                  && !(fl.preserve_cmdline && co.is_set_from_cmdline)) = true
              · rw [if_pos c7] at h
                norm_num at h
              · rw [if_neg c7]

/-- C8: m_config_set_option_raw returns the unknown-option error for a null
entry and for an entry without live storage, leaving the state unchanged in
both cases; whenever flag gating decides below commit (in particular when
preserve-cmdline demotes the call to check-only, decision 1), the call
returns that decision without copying the data into the live slot. -/
theorem c8_set_option_raw (s : MConfigState) (i : Nat) (co : COption) (v : Value)
    (fl : SetoptFlags) :
    m_config_set_option_raw s none v fl = (M_OPT_UNKNOWN, s)
    ∧ (s.opts[i]? = some co → co.data = none →
        m_config_set_option_raw s (some i) v fl = (M_OPT_UNKNOWN, s))
    ∧ (s.opts[i]? = some co → ∀ k, co.data = some k →
        (handle_set_opt_flags s i fl).1 ≤ 1 →
        m_config_set_option_raw s (some i) v fl = ((handle_set_opt_flags s i fl).1, s))
    ∧ (s.opts[i]? = some co → fl.check_only = false → fl.pre_parse_only = false →
        fl.no_fixed = false → fl.no_pre_parse = false → fl.from_config_file = false →
        fl.setopt_backup = false → fl.preserve_cmdline = true →
        co.is_set_from_cmdline = true →
        (handle_set_opt_flags s i fl).1 = 1) := by
  refine ⟨rfl, ?_, ?_, ?_⟩
  · intro hco hd
    simp only [m_config_set_option_raw, hco, hd]
  · intro hco k hd hle
    have hstate := handle_set_opt_flags_le_one s i fl hle
    simp only [m_config_set_option_raw, hco, hd]
    rw [hstate]
    simp only [if_pos hle]
  · intro hco h1 h2 h3 h4 h5 h6 h7 h8
    simp [handle_set_opt_flags, hco, h1, h2, h3, h4, h5, h6, h7, h8]

/-- Witness for c8_set_option_raw: entry previously set from the command
line, written with preserve-cmdline flags. -/
theorem c8_set_option_raw_witness :
    m_config_set_option_raw wS8 none 3 { preserve_cmdline := true } = (M_OPT_UNKNOWN, wS8)
    ∧ (handle_set_opt_flags wS8 0 { preserve_cmdline := true }).1 = 1
    ∧ m_config_set_option_raw wS8 (some 0) 3 { preserve_cmdline := true }
        = ((handle_set_opt_flags wS8 0 { preserve_cmdline := true }).1, wS8) := by
  have h := c8_set_option_raw wS8 0 cmdCO 3 { preserve_cmdline := true }
  have h1 : (handle_set_opt_flags wS8 0 { preserve_cmdline := true }).1 = 1 :=
    h.2.2.2 rfl rfl rfl rfl rfl rfl rfl rfl rfl
  exact ⟨h.1, h1, h.2.2.1 rfl 0 rfl (by rw [h1])⟩

/-- The ancestor chain of a negative group index is empty. -/
theorem ancestor_chain_neg (parent : Nat → Int) (fuel : Nat) (g : Int)
    (h : ¬0 ≤ g) : ancestor_chain parent fuel g = [] := by
  cases fuel <;> simp [ancestor_chain, h]

/-- Every member of the ancestor chain of g is at most g and below the group
count, when parents strictly decrease below the group count. -/
theorem ancestor_chain_le (parent : Nat → Int) (n : Nat)
    (hp : ∀ a, a < n → parent a < (a : Int)) :
    ∀ (fuel : Nat) (g : Int), 0 ≤ g → g.toNat < n →
      ∀ e ∈ ancestor_chain parent fuel g, (e : Int) ≤ g ∧ e < n := by
  intro fuel
  induction fuel with
  | zero => simp [ancestor_chain]
  | succ f ih =>
    intro g hg hgn e he
    rw [ancestor_chain, if_pos hg] at he
    rcases List.mem_cons.mp he with rfl | htail
    · exact ⟨le_of_eq (Int.toNat_of_nonneg hg), hgn⟩
    · by_cases hp0 : 0 ≤ parent g.toNat
      · have hlt : parent g.toNat < (g.toNat : Int) := hp g.toNat hgn
        have h2 : (parent g.toNat).toNat < n := by
          have : (parent g.toNat).toNat < g.toNat := by omega
          omega
        obtain ⟨h3, h4⟩ := ih (parent g.toNat) hp0 h2 e htail
        refine ⟨le_trans h3 ?_, h4⟩
        calc parent g.toNat ≤ (g.toNat : Int) := le_of_lt hlt
          _ = g := Int.toNat_of_nonneg hg
      · rw [ancestor_chain_neg parent f _ hp0] at htail
        exact absurd htail (List.not_mem_nil e)

/-- The bump loop adds exactly one to the counter of every group on the
ancestor chain and leaves every other counter unchanged. -/
theorem bump_groups_eq (parent : Nat → Int) (n : Nat)
    (hp : ∀ a, a < n → parent a < (a : Int)) :
    ∀ (fuel : Nat) (g : Int) (ts : Nat → Int), (0 ≤ g → g.toNat < n) →
      ∀ j, bump_groups parent fuel g ts j
        = ts j + (if j ∈ ancestor_chain parent fuel g then 1 else 0) := by
  intro fuel
  induction fuel with
  | zero =>
    intro g ts _ j
    simp [bump_groups, ancestor_chain]
  | succ f ih =>
    intro g ts hg j
    by_cases h0 : 0 ≤ g
    · have hgn := hg h0
      have hploc : parent g.toNat < (g.toNat : Int) := hp _ hgn
      have hrec : 0 ≤ parent g.toNat → (parent g.toNat).toNat < n := by
        intro hnn
        have : (parent g.toNat).toNat < g.toNat := by omega
        omega
      rw [bump_groups, if_pos h0, ancestor_chain, if_pos h0,
        ih (parent g.toNat) _ hrec j]
      by_cases hj : j = g.toNat
      · have hnot : g.toNat ∉ ancestor_chain parent f (parent g.toNat) := by
          intro hmem
          by_cases hp0 : 0 ≤ parent g.toNat
          · obtain ⟨hle, _⟩ := ancestor_chain_le parent n hp f (parent g.toNat)
              hp0 (hrec hp0) g.toNat hmem
            omega
          · rw [ancestor_chain_neg parent f _ hp0] at hmem
            exact absurd hmem (List.not_mem_nil g.toNat)
        subst hj
        simp [Function.update_same, hnot]
      · rw [Function.update_noteq hj]
        have : (j ∈ g.toNat :: ancestor_chain parent f (parent g.toNat))
            ↔ (j ∈ ancestor_chain parent f (parent g.toNat)) := by
          simp [List.mem_cons, hj]
        simp only [this]
    · rw [bump_groups, if_neg h0, ancestor_chain_neg parent (f + 1) g h0]
      simp

/-- C1: on a commit of an option with live storage in a config whose shadow
exists, m_config_notify_change_co copies the live slot into the shadow slot
(when the entry is shadowed), the owning group lies on its own ancestor
chain, every counter on that chain grows by exactly one (hence strictly),
and no group counter ever decreases. -/
theorem c1_notify_change (s : MConfigState) (i : Nat) (co : COption) (k : Nat)
    (hsh : s.shadow = true) (hco : s.opts[i]? = some co) (hk : co.data = some k)
    (hg : co.group < s.num_groups)
    (hp : ∀ a, a < s.num_groups → s.parent_group a < (a : Int)) :
    (0 ≤ co.shadow_offset →
      (m_config_notify_change_co s i).shadow_data co.shadow_offset = s.store k)
    ∧ co.group ∈ ancestor_chain s.parent_group s.num_groups (Int.ofNat co.group)
    ∧ (∀ g ∈ ancestor_chain s.parent_group s.num_groups (Int.ofNat co.group),
        (m_config_notify_change_co s i).group_ts g = s.group_ts g + 1
        ∧ s.group_ts g < (m_config_notify_change_co s i).group_ts g)
    ∧ (∀ j, s.group_ts j ≤ (m_config_notify_change_co s i).group_ts j) := by
  have hbump : ∀ j, (m_config_notify_change_co s i).group_ts j
      = s.group_ts j + (if j ∈ ancestor_chain s.parent_group s.num_groups
          (Int.ofNat co.group) then 1 else 0) := by
    intro j
    have hrec : 0 ≤ Int.ofNat co.group → (Int.ofNat co.group).toNat < s.num_groups := by
      intro _
      simpa using hg
    have := bump_groups_eq s.parent_group s.num_groups hp s.num_groups
      (Int.ofNat co.group) s.group_ts hrec j
    simp only [m_config_notify_change_co, hco, hsh, if_true]
    exact this
  have hmem : co.group ∈ ancestor_chain s.parent_group s.num_groups
      (Int.ofNat co.group) := by
    cases hn : s.num_groups with
    | zero => omega
    | succ m =>
      rw [ancestor_chain]
      simp
  refine ⟨?_, hmem, ?_, ?_⟩
  · intro hso
    simp only [m_config_notify_change_co, hco, hsh, if_true, hk, if_pos hso]
    simp [Function.update_same]
  · intro g hgmem
    rw [hbump g, if_pos hgmem]
    omega
  · intro j
    rw [hbump j]
    split <;> omega

/-- Witness for c1_notify_change at the one-option, one-group root wS. -/
theorem c1_notify_change_witness :
    (0 ≤ muteCO.shadow_offset →
      (m_config_notify_change_co wS 0).shadow_data muteCO.shadow_offset = wS.store 0)
    ∧ (∀ g ∈ ancestor_chain wS.parent_group wS.num_groups (Int.ofNat muteCO.group),
        (m_config_notify_change_co wS 0).group_ts g = wS.group_ts g + 1
        ∧ wS.group_ts g < (m_config_notify_change_co wS 0).group_ts g) :=
  have h := c1_notify_change wS 0 muteCO 0 rfl rfl rfl (by decide)
    (by decide)
  ⟨h.1, h.2.2.1⟩

/-- Applying a singleton profile-name list is the same as applying that one
profile (the parse_profile loop stops at the single element either way). -/
theorem parse_profile_names_single (ps : List MProfile) (depth : Nat) (nm : String)
    (flags : Int) :
    parse_profile_names ps depth [nm] flags = m_config_set_profile ps depth nm flags := by
  rw [parse_profile_names]
  rw [if_pos (Or.inr rfl)]

/-- One-step equation of m_config_set_profile on a found profile. -/
theorem set_profile_eq (ps : List MProfile) (depth : Nat) (name : String)
    (flags : Int) (p : MProfile) (h : m_config_get_profile ps name = some p) :
    m_config_set_profile ps depth name flags
      = if MAX_PROFILE_DEPTH < depth then (M_OPT_UNKNOWN, [PEv.warnTooDeep])
        else (0, PEv.profileStart name
              :: profile_apply_pairs ps (depth + 1) p.popts flags) := by
  rw [m_config_set_profile, h]

/-- At depth 21 the guard of m_config_set_profile trips on profile "A". -/
theorem set_profile_A_tooDeep :
    m_config_set_profile storeA 21 "A" 0 = (M_OPT_UNKNOWN, [PEv.warnTooDeep]) := by
  rw [set_profile_eq storeA 21 "A" 0 profileA (by decide)]
  rw [if_pos (by decide : MAX_PROFILE_DEPTH < 21)]

/-- Below the guard, applying profile "A" emits one loop-entry event and
recurses into itself one level deeper. -/
theorem set_profile_A_step (d : Nat) (hd : d ≤ MAX_PROFILE_DEPTH) :
    m_config_set_profile storeA d "A" 0
      = (0, PEv.profileStart "A" :: (m_config_set_profile storeA (d + 1) "A" 0).2) := by
  rw [set_profile_eq storeA d "A" 0 profileA (by decide)]
  rw [if_neg (by omega : ¬MAX_PROFILE_DEPTH < d)]
  have happly : profile_apply_pairs storeA (d + 1) profileA.popts 0
      = (m_config_set_profile storeA (d + 1) "A" 0).2 := by
    rw [show profileA.popts = [("profile", "A")] from rfl]
    rw [profile_apply_pairs]
    rw [if_pos rfl, profile_apply_pairs, List.append_nil]
    rw [show splitProfileList "A" = ["A"] from by decide]
    rw [parse_profile_names_single]
  rw [happly]

/-- Closed form of the self-referential application of profile "A": counting
down from depth 21, each level below the guard prepends one loop entry, and
the level at depth 21 contributes the too-deep warning. -/
theorem set_profile_A_closed :
    ∀ kk : Nat, kk ≤ 21 →
      m_config_set_profile storeA (21 - kk) "A" 0
        = if kk = 0 then (M_OPT_UNKNOWN, [PEv.warnTooDeep])
          else (0, List.replicate kk (PEv.profileStart "A") ++ [PEv.warnTooDeep]) := by
  intro kk
  induction kk with
  | zero =>
    intro _
    simpa using set_profile_A_tooDeep
  | succ k ih =>
    intro hk
    have hstep := set_profile_A_step (21 - (k + 1))
      (by simp only [MAX_PROFILE_DEPTH]; omega)
    have harith : 21 - (k + 1) + 1 = 21 - k := by omega
    rw [hstep, harith, ih (by omega)]
    by_cases hk0 : k = 0
    · subst hk0
      simp [List.replicate]
    · rw [if_neg hk0, if_neg (Nat.succ_ne_zero k)]
      simp [List.replicate_succ]

/-- C3: the depth guard of m_config_set_profile trips exactly beyond
MAX_PROFILE_DEPTH = 20, emitting the too-deep warning and returning the
unknown code with no pair applied; and the self-referential profile "A"
(pair profile=A) terminates, entering the apply loop for the top call and 20
nested levels before the warning replaces any deeper application. -/
theorem c3_profile_depth (ps : List MProfile) (depth : Nat) (name : String)
    (flags : Int) (p : MProfile)
    (hfound : m_config_get_profile ps name = some p)
    (hdeep : MAX_PROFILE_DEPTH < depth) :
    m_config_set_profile ps depth name flags = (M_OPT_UNKNOWN, [PEv.warnTooDeep])
    ∧ m_config_set_profile storeA 0 "A" 0
        = (0, List.replicate 21 (PEv.profileStart "A") ++ [PEv.warnTooDeep]) := by
  constructor
  · rw [set_profile_eq ps depth name flags p hfound, if_pos hdeep]
  · simpa using set_profile_A_closed 21 (le_refl 21)

/-- Witness for c3_profile_depth: the guard trips at depth 21 on profile "A". -/
theorem c3_profile_depth_witness :
    m_config_set_profile storeA 21 "A" 0 = (M_OPT_UNKNOWN, [PEv.warnTooDeep])
    ∧ m_config_set_profile storeA 0 "A" 0
        = (0, List.replicate 21 (PEv.profileStart "A") ++ [PEv.warnTooDeep]) :=
  c3_profile_depth storeA 21 "A" 0 profileA (by decide) (by decide)

/-- updCO preserves the length of the registry. -/
theorem updCO_length (f : COption → COption) :
    ∀ (l : List COption) (j : Nat), (updCO f l j).length = l.length := by
  intro l
  induction l with
  | nil => intro j; rfl
  | cons co rest ih =>
    intro j
    cases j with
    | zero => rfl
    | succ j2 => simp [updCO, ih j2]

/-- Reading the updated index of updCO. -/
theorem updCO_get_self (f : COption → COption) :
    ∀ (l : List COption) (j : Nat), (updCO f l j)[j]? = (l[j]?).map f := by
  intro l
  induction l with
  | nil => intro j; cases j <;> rfl
  | cons co rest ih =>
    intro j
    cases j with
    | zero => simp [updCO]
    | succ j2 => simpa [updCO] using ih j2

/-- Reading any other index of updCO. -/
theorem updCO_get_ne (f : COption → COption) :
    ∀ (l : List COption) (j j2 : Nat), j ≠ j2 → (updCO f l j)[j2]? = l[j2]? := by
  intro l
  induction l with
  | nil => intro j j2 _; cases j <;> rfl
  | cons co rest ih =>
    intro j j2 hne
    cases j with
    | zero =>
      cases j2 with
      | zero => exact absurd rfl hne
      | succ m => simp [updCO]
    | succ jj =>
      cases j2 with
      | zero => simp [updCO]
      | succ m => simpa [updCO] using ih jj m (by omega)

/-- ensure_backup refuses has-child, global and storage-less entries. -/
theorem ensure_backup_refuse (s : MConfigState) (i : Nat) (co : COption)
    (hco : s.opts[i]? = some co)
    (h : co.typeHasChild = true ∨ co.optGlobal = true ∨ co.data = none) :
    ensure_backup s i = s := by
  rcases h with h | h | h
  · simp [ensure_backup, hco, h]
  · cases hch : co.typeHasChild
    · simp [ensure_backup, hco, hch, h]
    · simp [ensure_backup, hco, hch]
  · cases hch : co.typeHasChild
    · cases hgl : co.optGlobal
      · simp [ensure_backup, hco, hch, hgl, h]
      · simp [ensure_backup, hco, hch, hgl]
    · simp [ensure_backup, hco, hch]

/-- ensure_backup refuses when the stack already holds the storage key. -/
theorem ensure_backup_dup (s : MConfigState) (i : Nat) (co : COption) (k : Nat)
    (hco : s.opts[i]? = some co) (hd : co.data = some k)
    (hmem : k ∈ stackKeys s) :
    ensure_backup s i = s := by
  have hany : s.backup_opts.any (fun bc => bc.key == k) = true := by
    rw [List.any_eq_true]
    obtain ⟨bc, hbc, hkey⟩ := List.mem_map.mp hmem
    exact ⟨bc, hbc, by simp [hkey]⟩
  cases hch : co.typeHasChild
  · cases hgl : co.optGlobal
    · simp [ensure_backup, hco, hch, hgl, hd, hany]
    · simp [ensure_backup, hco, hch, hgl]
  · simp [ensure_backup, hco, hch]

/-- ensure_backup pushes a snapshot for a fresh qualifying entry. -/
theorem ensure_backup_push (s : MConfigState) (i : Nat) (co : COption) (k : Nat)
    (hco : s.opts[i]? = some co) (hch : co.typeHasChild = false)
    (hgl : co.optGlobal = false) (hd : co.data = some k)
    (hfresh : k ∉ stackKeys s) :
    ensure_backup s i
      = { s with
          backup_opts := { co := i, key := k, backup := s.store k } :: s.backup_opts,
          opts := updCO (fun c => { c with is_set_locally := true }) s.opts i } := by
  have hany : s.backup_opts.any (fun bc => bc.key == k) = false := by
    rw [List.any_eq_false]
    intro bc hbc
    simp only [beq_iff_eq]
    intro hkey
    exact hfresh (List.mem_map.mpr ⟨bc, hbc, hkey⟩)
  simp [ensure_backup, hco, hch, hgl, hd, hany]

/-- Case analysis of one controller event: it leaves the state unchanged,
writes one live slot, or pushes one fresh backup entry. -/
theorem run_op_cases (s : MConfigState) (op : BOp) :
    run_op s op = s
    ∨ (∃ k v, op = BOp.write k v
        ∧ run_op s op = { s with store := Function.update s.store k v })
    ∨ (∃ i co k, op = BOp.ensure i ∧ s.opts[i]? = some co
        ∧ co.typeHasChild = false ∧ co.optGlobal = false ∧ co.data = some k
        ∧ k ∉ stackKeys s
        ∧ run_op s op = { s with
            backup_opts := { co := i, key := k, backup := s.store k } :: s.backup_opts,
            opts := updCO (fun c => { c with is_set_locally := true }) s.opts i }) := by
  cases op with
  | write k v => exact Or.inr (Or.inl ⟨k, v, rfl, rfl⟩)
  | ensure i =>
    cases hco : s.opts[i]? with
    | none =>
      left
      simp [run_op, ensure_backup, hco]
    | some co =>
      by_cases hch : co.typeHasChild = true
      · left
        exact ensure_backup_refuse s i co hco (Or.inl hch)
      · by_cases hgl : co.optGlobal = true
        · left
          exact ensure_backup_refuse s i co hco (Or.inr (Or.inl hgl))
        · cases hd : co.data with
          | none =>
            left
            exact ensure_backup_refuse s i co hco (Or.inr (Or.inr hd))
          | some k =>
            by_cases hmem : k ∈ stackKeys s
            · left
              exact ensure_backup_dup s i co k hco hd hmem
            · right; right
              exact ⟨i, co, k, rfl, hco, by simpa using hch, by simpa using hgl,
                hd, hmem,
                ensure_backup_push s i co k hco (by simpa using hch)
                  (by simpa using hgl) hd hmem⟩

/-- One controller event preserves stack membership, distinctness of the
backed-up keys, the registry length, and the validity of stack indices. -/
theorem run_op_preserve (s : MConfigState) (op : BOp) :
    (∀ bc ∈ s.backup_opts, bc ∈ (run_op s op).backup_opts)
    ∧ ((stackKeys s).Nodup → (stackKeys (run_op s op)).Nodup)
    ∧ (run_op s op).opts.length = s.opts.length
    ∧ ((∀ bc ∈ s.backup_opts, bc.co < s.opts.length) →
        ∀ bc ∈ (run_op s op).backup_opts, bc.co < (run_op s op).opts.length) := by
  rcases run_op_cases s op with heq | ⟨k, v, _, heq⟩ | ⟨i, co, k, _, hco, _, _, _, hfresh, heq⟩
  · rw [heq]
    exact ⟨fun bc h => h, fun h => h, rfl, fun h => h⟩
  · rw [heq]
    exact ⟨fun bc h => h, fun h => h, rfl, fun h => h⟩
  · rw [heq]
    refine ⟨?_, ?_, ?_, ?_⟩
    · intro bc h
      exact List.mem_cons_of_mem _ h
    · intro hnd
      exact List.nodup_cons.mpr ⟨hfresh, hnd⟩
    · exact updCO_length _ s.opts i
    · intro hwf bc hbc
      rcases List.mem_cons.mp hbc with rfl | hbc2
      · simpa [updCO_length] using (List.getElem?_eq_some.mp hco).1
      · simpa [updCO_length] using hwf bc hbc2

/-- A whole controller event sequence preserves stack membership, key
distinctness, the registry length, and stack index validity. -/
theorem run_ops_preserve :
    ∀ (ops : List BOp) (s : MConfigState),
      (∀ bc ∈ s.backup_opts, bc ∈ (run_ops s ops).backup_opts)
      ∧ ((stackKeys s).Nodup → (stackKeys (run_ops s ops)).Nodup)
      ∧ (run_ops s ops).opts.length = s.opts.length
      ∧ ((∀ bc ∈ s.backup_opts, bc.co < s.opts.length) →
          ∀ bc ∈ (run_ops s ops).backup_opts, bc.co < (run_ops s ops).opts.length) := by
  intro ops
  induction ops with
  | nil =>
    intro s
    exact ⟨fun bc h => h, fun h => h, rfl, fun h => h⟩
  | cons op rest ih =>
    intro s
    obtain ⟨m1, n1, l1, w1⟩ := run_op_preserve s op
    obtain ⟨m2, n2, l2, w2⟩ := ih (run_op s op)
    refine ⟨?_, ?_, ?_, ?_⟩
    · intro bc h
      exact m2 bc (m1 bc h)
    · intro hnd
      exact n2 (n1 hnd)
    · rw [show run_ops s (op :: rest) = run_ops (run_op s op) rest from rfl, l2, l1]
    · intro hwf
      exact w2 (w1 hwf)

/-- The restore loop does not touch the backup stack field it drains (the
draining happens before the loop in m_config_restore_backups). -/
theorem restore_list_backup_opts :
    ∀ (l : List BackupEntry) (s : MConfigState),
      (restore_list s l).backup_opts = s.backup_opts := by
  intro l
  induction l with
  | nil => intro s; rfl
  | cons bc rest ih => intro s; simpa [restore_list] using ih (restore_one s bc)

/-- The restore loop preserves the registry length. -/
theorem restore_list_opts_length :
    ∀ (l : List BackupEntry) (s : MConfigState),
      (restore_list s l).opts.length = s.opts.length := by
  intro l
  induction l with
  | nil => intro s; rfl
  | cons bc rest ih =>
    intro s
    rw [show restore_list s (bc :: rest) = restore_list (restore_one s bc) rest from rfl,
      ih (restore_one s bc)]
    simp [restore_one, updCO_length]

/-- The restore loop leaves slots alone whose key it does not hold. -/
theorem restore_list_store_not :
    ∀ (l : List BackupEntry) (s : MConfigState) (k : Nat),
      k ∉ l.map BackupEntry.key →
      (restore_list s l).store k = s.store k := by
  intro l
  induction l with
  | nil => intro s k _; rfl
  | cons bc rest ih =>
    intro s k hk
    have hne : k ≠ bc.key := fun he => hk (by simp [he])
    have hk2 : k ∉ rest.map BackupEntry.key := fun hm => hk (by simp [hm])
    rw [show restore_list s (bc :: rest) = restore_list (restore_one s bc) rest from rfl,
      ih (restore_one s bc) k hk2]
    simp [restore_one, Function.update_noteq hne]

/-- The restore loop writes every held snapshot back into the slot of its
key, when the held keys are pairwise distinct. -/
theorem restore_list_store_mem :
    ∀ (l : List BackupEntry) (s : MConfigState) (bc : BackupEntry),
      (l.map BackupEntry.key).Nodup → bc ∈ l →
      (restore_list s l).store bc.key = bc.backup := by
  intro l
  induction l with
  | nil =>
    intro s bc _ hmem
    exact absurd hmem (List.not_mem_nil bc)
  | cons bc2 rest ih =>
    intro s bc hnd hmem
    rcases List.mem_cons.mp hmem with rfl | hmem2
    · have hk2 : bc.key ∉ rest.map BackupEntry.key := by
        rw [List.map_cons] at hnd
        exact (List.nodup_cons.mp hnd).1
      rw [show restore_list s (bc :: rest) = restore_list (restore_one s bc) rest from rfl,
        restore_list_store_not rest (restore_one s bc) bc.key hk2]
      simp [restore_one, Function.update_same]
    · have hnd2 : (rest.map BackupEntry.key).Nodup := by
        rw [List.map_cons] at hnd
        exact (List.nodup_cons.mp hnd).2
      exact ih (restore_one s bc2) bc hnd2 hmem2

/-- The restore loop never sets is_set_locally: once it reads false at an
index, it still reads false after the loop. -/
theorem restore_list_locally_preserved :
    ∀ (l : List BackupEntry) (s : MConfigState) (j : Nat),
      ((s.opts[j]?).map (fun c => c.is_set_locally)) = some false →
      (((restore_list s l).opts[j]?).map (fun c => c.is_set_locally)) = some false := by
  intro l
  induction l with
  | nil => intro s j h; exact h
  | cons bc rest ih =>
    intro s j h
    refine ih (restore_one s bc) j ?_
    by_cases hj : bc.co = j
    · subst hj
      cases hco : s.opts[bc.co]? with
      | none => rw [hco] at h; exact absurd h (by simp)
      | some c =>
        simp [restore_one, updCO_get_self, hco]
    · simpa [restore_one, updCO_get_ne _ _ _ _ hj] using h

/-- After the restore loop, every entry the stack held reads is_set_locally
= false. -/
theorem restore_list_locally_mem :
    ∀ (l : List BackupEntry) (s : MConfigState) (bc : BackupEntry),
      bc ∈ l → bc.co < s.opts.length →
      (((restore_list s l).opts[bc.co]?).map (fun c => c.is_set_locally)) = some false := by
  intro l
  induction l with
  | nil =>
    intro s bc hmem
    exact absurd hmem (List.not_mem_nil bc)
  | cons bc2 rest ih =>
    intro s bc hmem hlen
    rcases List.mem_cons.mp hmem with rfl | hmem2
    · refine restore_list_locally_preserved rest (restore_one s bc) bc.co ?_
      cases hco : s.opts[bc.co]? with
      | none =>
        have hge : s.opts.length ≤ bc.co := List.getElem?_eq_none_iff.mp hco
        omega
      | some c =>
        simp [restore_one, updCO_get_self, hco]
    · exact ih (restore_one s bc2) bc hmem2 (by simpa [restore_one, updCO_length] using hlen)

/-- A snapshot already on the stack survives any event sequence and is
written back by restore_backups. -/
theorem stack_restore (ops : List BOp) (s : MConfigState) (bc : BackupEntry)
    (hnd : (stackKeys s).Nodup) (hmem : bc ∈ s.backup_opts) :
    (m_config_restore_backups (run_ops s ops)).store bc.key = bc.backup := by
  obtain ⟨m, n, _, _⟩ := run_ops_preserve ops s
  rw [m_config_restore_backups]
  exact restore_list_store_mem _ _ bc (by simpa [stackKeys] using n hnd) (m bc hmem)

/-- The value recorded by the first referencing ensure_backup is what
restore_backups writes back. -/
theorem firstEnsure_restore :
    ∀ (ops : List BOp) (s : MConfigState) (k : Nat) (v : Value),
      (stackKeys s).Nodup → k ∉ stackKeys s →
      firstEnsureVal s ops k = some v →
      (m_config_restore_backups (run_ops s ops)).store k = v := by
  intro ops
  induction ops with
  | nil =>
    intro s k v _ _ hfe
    exact absurd hfe (by simp [firstEnsureVal])
  | cons op rest ih =>
    intro s k v hnd hfresh hfe
    cases op with
    | write k2 v2 =>
      rw [firstEnsureVal] at hfe
      exact ih (run_op s (BOp.write k2 v2)) k v hnd hfresh hfe
    | ensure i =>
      rw [firstEnsureVal] at hfe
      cases hco : s.opts[i]? with
      | none =>
        rw [hco] at hfe
        have hrop : run_op s (BOp.ensure i) = s := by
          simp [run_op, ensure_backup, hco]
        have := ih (run_op s (BOp.ensure i)) k v (by rwa [hrop]) (by rwa [hrop]) hfe
        exact this
      | some co =>
        rw [hco] at hfe
        dsimp only at hfe
        by_cases hq : co.typeHasChild = false ∧ co.optGlobal = false ∧ co.data = some k
        · rw [if_pos hq] at hfe
          obtain ⟨hch, hgl, hd⟩ := hq
          have hv : v = s.store k := (Option.some.inj hfe).symm
          have hpush := ensure_backup_push s i co k hco hch hgl hd hfresh
          have hmem : ({ co := i, key := k, backup := s.store k } : BackupEntry)
              ∈ (run_op s (BOp.ensure i)).backup_opts := by
            rw [show run_op s (BOp.ensure i) = ensure_backup s i from rfl, hpush]
            exact List.mem_cons_self _ _
          have hnd2 : (stackKeys (run_op s (BOp.ensure i))).Nodup := by
            rw [show run_op s (BOp.ensure i) = ensure_backup s i from rfl, hpush]
            simp only [stackKeys, List.map_cons]
            exact List.nodup_cons.mpr ⟨hfresh, hnd⟩
          have hres := stack_restore rest (run_op s (BOp.ensure i))
            { co := i, key := k, backup := s.store k } hnd2 hmem
          rw [hv]
          exact hres
        · rw [if_neg hq] at hfe
          obtain ⟨_, n1, _, _⟩ := run_op_preserve s (BOp.ensure i)
          have hfresh2 : k ∉ stackKeys (run_op s (BOp.ensure i)) := by
            rcases run_op_cases s (BOp.ensure i) with heq | ⟨k3, v3, habs, _⟩ |
              ⟨i2, co2, k2, hop, hco2, hch2, hgl2, hd2, hfr2, heq⟩
            · rwa [heq]
            · cases habs
            · cases hop
              rw [hco] at hco2
              obtain rfl := Option.some.inj hco2
              have hne : k2 ≠ k := by
                intro he
                exact hq ⟨hch2, hgl2, by rw [hd2, he]⟩
              rw [heq]
              simp only [stackKeys, List.map_cons, List.mem_cons]
              rintro (h | h)
              · exact hne h.symm
              · exact hfresh h
          exact ih (run_op s (BOp.ensure i)) k v (n1 hnd) hfresh2 hfe

/-- C4: ensure_backup is a no-op for has-child, global-only and storage-less
entries and for a storage key already on the stack (each slot is backed up
at most once); after restore_backups at the end of any event sequence begun
with an empty stack, every backed-up slot holds the value it had right
before the first ensure_backup that referenced it, the is_set_locally flag
of every backed-up entry is cleared, and the backup stack is empty. -/
theorem c4_backup_restore (s : MConfigState) (ops : List BOp) :
    (∀ i co, s.opts[i]? = some co →
      (co.typeHasChild = true ∨ co.optGlobal = true ∨ co.data = none) →
      ensure_backup s i = s)
    ∧ (∀ i co k, s.opts[i]? = some co → co.data = some k → k ∈ stackKeys s →
        ensure_backup s i = s)
    ∧ (s.backup_opts = [] → (stackKeys (run_ops s ops)).Nodup)
    ∧ (s.backup_opts = [] → ∀ k v, firstEnsureVal s ops k = some v →
        (m_config_restore_backups (run_ops s ops)).store k = v)
    ∧ (m_config_restore_backups (run_ops s ops)).backup_opts = []
    ∧ (s.backup_opts = [] → ∀ bc ∈ (run_ops s ops).backup_opts,
        (((m_config_restore_backups (run_ops s ops)).opts[bc.co]?).map
          (fun c => c.is_set_locally)) = some false) := by
  refine ⟨?_, ?_, ?_, ?_, ?_, ?_⟩
  · intro i co hco h
    exact ensure_backup_refuse s i co hco h
  · intro i co k hco hd hmem
    exact ensure_backup_dup s i co k hco hd hmem
  · intro hempty
    obtain ⟨_, n, _, _⟩ := run_ops_preserve ops s
    exact n (by simp [stackKeys, hempty])
  · intro hempty k v hfe
    exact firstEnsure_restore ops s k v (by simp [stackKeys, hempty])
      (by simp [stackKeys, hempty]) hfe
  · rw [m_config_restore_backups, restore_list_backup_opts]
  · intro hempty bc hbc
    obtain ⟨_, _, _, w⟩ := run_ops_preserve ops s
    have hwf : ∀ bc2 ∈ (run_ops s ops).backup_opts,
        bc2.co < (run_ops s ops).opts.length := by
      refine w ?_
      rw [hempty]
      intro bc2 h
      exact absurd h (List.not_mem_nil bc2)
    rw [m_config_restore_backups]
    exact restore_list_locally_mem _ _ bc hbc (hwf bc hbc)

/-- Witness for c4_backup_restore: back up the mute slot of wS, overwrite it,
then restore; the slot returns to 7 and the stack drains. -/
theorem c4_backup_restore_witness :
    firstEnsureVal wS wOps 0 = some 7
    ∧ (m_config_restore_backups (run_ops wS wOps)).store 0 = 7
    ∧ (m_config_restore_backups (run_ops wS wOps)).backup_opts = [] := by
  have h := c4_backup_restore wS wOps
  exact ⟨by decide, h.2.2.2.1 rfl 0 7 (by decide), h.2.2.2.2.1⟩

end MpvConfig
